import Mathlib

/-!
# Verification of the Augur `augur_db` metric catalog

Shallow embedding of `src/augur/datasources/augur_db/augur_db.py`.
The relational store is modelled by lists of rows (one structure per table),
SQL queries by executable list functions, and the one stateful algorithm
(`top_committers`) by a recursive function mirroring the pandas loop.
Fallible Python code (exceptions) is modelled with `Except String`.
Python floats are modelled by exact rationals (`ℚ`); Python's `round`
(banker's rounding, half to even) is `pyRoundTimes` below.
-/

namespace Augur

/-- Python truthiness test `not repo_id` for an optional integer id:
`None` and `0` are falsy. -/
def pyFalsy : Option Int → Bool
  | none => true
  | some i => i == 0

/-- `round(threshold * total_commits)` (line 2031): Python's built-in
`round` — round half to even — applied to the exact rational
`theta * t = (theta.num * t) / theta.den`.  Computed on numerator and
denominator with integer division so that the kernel can evaluate it:
`f` is the floor of the product and `r` its remainder, and the fractional
part `r / theta.den` is compared with `1/2` by cross-multiplication. -/
def pyRoundTimes (theta : ℚ) (t : ℤ) : ℤ :=
  let a := theta.num * t
  let b := (theta.den : ℤ)
  let f := a / b
  let r := a % b
  if 2 * r < b then f
  else if b < 2 * r then f + 1
  else if f % 2 = 0 then f else f + 1

/-- Keep the first occurrence of each element, dropping later duplicates
(the set of group-by keys in first-scan order); `seen` accumulates keys
already emitted. -/
def firstDedupAux {α : Type} [DecidableEq α] (seen : List α) : List α → List α
  | [] => []
  | a :: as =>
      if a ∈ seen then firstDedupAux seen as
      else a :: firstDedupAux (a :: seen) as

/-- Distinct elements of a list, in order of first occurrence. -/
def firstDedup {α : Type} [DecidableEq α] (l : List α) : List α :=
  firstDedupAux [] l

/-! ## Rollup tables and the top-committers aggregator -/

/-- One row of the annual rollup tables `dm_repo_group_annual` /
`dm_repo_annual`: `scope_id` is `repo_group_id` resp. `repo_id`.
`added`/`removed`/`whitespace` are the line-delta columns used by the
ranked-commit metrics. -/
structure AnnualRow where
  scope_id : Int
  email : String
  year : Int
  patches : Int
  added : Int
  removed : Int
  whitespace : Int
  deriving DecidableEq, Repr

/-- One row of the table produced by the committers query of
`top_committers` (and of the table the function returns). -/
structure CommitterRow where
  scope_id : Int
  scope_name : String
  email : String
  commits : Int
  deriving DecidableEq, Repr

/-- `top_committers`, lines 2006–2028: `SELECT SUM(patches)::int FROM (...
WHERE year = :year AND <scope> = :scope)`.  `SUM` over no rows is SQL
`NULL` (`none`); the subsequent `int(...)` conversion fails on it. -/
def totalCommitsQuery (tbl : List AnnualRow) (year scope : Int) : Option Int :=
  let a := tbl.filter (fun r => r.year == year && r.scope_id == scope)
  if a.isEmpty then none else some ((a.map (·.patches)).sum)

/-- `top_committers`, lines 2034–2070: the committers query.  Filters the
rollup to the requested scope/year, joins the name table (`repo_groups`
resp. `repo`), groups by (scope id, name, email) summing `patches` as
`commits`, and orders by `commits` descending. -/
def committersQuery (tbl : List AnnualRow) (names : List (Int × String))
    (year scope : Int) : List CommitterRow :=
  let a := tbl.filter (fun r => r.year == year && r.scope_id == scope)
  let joined := a.flatMap (fun r =>
    (names.filter (fun n => n.1 == r.scope_id)).map (fun n => (r, n.2)))
  let keys := firstDedup (joined.map (fun p => (p.1.scope_id, p.2, p.1.email)))
  let grouped := keys.map (fun k =>
    CommitterRow.mk k.1 k.2.1 k.2.2
      (((joined.filter (fun p =>
          p.1.scope_id == k.1 && p.2 == k.2.1 && p.1.email == k.2.2)).map
        (fun p => p.1.patches)).sum))
  List.insertionSort (fun x y => y.commits ≤ x.commits) grouped

/-- `top_committers`, lines 2072–2077: the pandas scan
`for i, row in results.iterrows(): cumsum += row['commits'];
if cumsum >= threshold_commits: results = results[:i+1]; break`.
Returns the (possibly truncated) row list together with the final
`cumsum`. -/
def scanTrunc (threshold_commits : Int) (cumsum : Int) :
    List CommitterRow → List CommitterRow × Int
  | [] => ([], cumsum)
  | r :: rest =>
      let c := cumsum + r.commits
      if threshold_commits ≤ c then ([r], c)
      else
        let p := scanTrunc threshold_commits c rest
        (r :: p.1, p.2)

/-- `top_committers`, lines 2031 and 2072–2086: everything after the two
queries.  Computes `threshold_commits = round(threshold * total_commits)`,
runs the truncating scan, and appends the synthetic `other_contributors`
row built from the first result row.  On an empty row list the Python
code fails (`results.iloc[0]` raises); this is the `Except.error` case. -/
def topCommittersPost (scope total : Int) (threshold : ℚ)
    (rows : List CommitterRow) : Except String (List CommitterRow) :=
  let threshold_commits := pyRoundTimes threshold total
  match scanTrunc threshold_commits 0 rows with
  | (trunc, cumsum) =>
    match trunc with
    | [] => Except.error "single positional indexer is out-of-bounds"
    | first :: rest =>
        Except.ok ((first :: rest) ++
          [⟨scope, first.scope_name, "other_contributors", total - cumsum⟩])

/-- The rollup table scoped by the `if not repo_id` branch of
`top_committers`. -/
def scopeTbl (repo_id : Option Int) (dmGroup dmRepo : List AnnualRow) :
    List AnnualRow :=
  if pyFalsy repo_id then dmGroup else dmRepo

/-- The name table (`repo_groups` resp. `repo`) scoped by the
`if not repo_id` branch. -/
def scopeNames (repo_id : Option Int) (groupNames repoNames : List (Int × String)) :
    List (Int × String) :=
  if pyFalsy repo_id then groupNames else repoNames

/-- The scope identifier used in the queries and in the synthetic row:
`repo_group_id` in the group branch, `repo_id` otherwise. -/
def scopeId (repo_id : Option Int) (repo_group_id : Int) : Int :=
  if pyFalsy repo_id then repo_group_id else repo_id.getD 0

/-- `top_committers` (lines 1988–2088): threshold range check, total-commits
query (failing on SQL `NULL`), committers query, truncating scan and
synthetic remainder row. -/
def top_committers (dmGroup dmRepo : List AnnualRow)
    (groupNames repoNames : List (Int × String))
    (repo_group_id : Int) (repo_id : Option Int) (year : Int) (threshold : ℚ) :
    Except String (List CommitterRow) :=
  if threshold < 0 ∨ threshold > 1 then
    Except.error "threshold should be between 0 and 1"
  else
    let tbl := scopeTbl repo_id dmGroup dmRepo
    let scope := scopeId repo_id repo_group_id
    match totalCommitsQuery tbl year scope with
    | none => Except.error "cannot convert float NaN to integer"
    | some total =>
        topCommittersPost scope total threshold
          (committersQuery tbl (scopeNames repo_id groupNames repoNames) year scope)

/-- Cumulative commit sum of the first `m` contributor rows (used to state
the prefix properties of the truncating scan). -/
def prefixSum (rows : List CommitterRow) (m : ℕ) : ℤ :=
  ((rows.take m).map (·.commits)).sum

/-! ## The `repo` and `commits` tables and `code_changes` -/

/-- One row of the `repo` table (the columns the embedded metrics read). -/
structure RepoRow where
  repo_id : Int
  repo_name : String
  repo_group_id : Int
  deriving DecidableEq, Repr

/-- One row of the `commits` table (the columns `code_changes` reads);
timestamps are integers. -/
structure CommitRow where
  repo_id : Int
  cmt_commit_hash : String
  cmt_committer_date : Int
  deriving DecidableEq, Repr

/-- A result row of the group-scoped `code_changes` query
(`SELECT commits.repo_id, repo_name, date, commit_count`). -/
structure GroupChangeRow where
  repo_id : Int
  repo_name : String
  date : Int
  commit_count : ℕ
  deriving DecidableEq, Repr

/-- A result row of the single-project `code_changes` query
(`SELECT repo_name, date, commit_count` — no `repo_id` column). -/
structure RepoChangeRow where
  repo_name : String
  date : Int
  commit_count : ℕ
  deriving DecidableEq, Repr

/-- The group/repo-identifying column dropped in single-project mode. -/
def dropRepoId (g : GroupChangeRow) : RepoChangeRow :=
  ⟨g.repo_name, g.date, g.commit_count⟩

/-- The `FROM commits JOIN repo ON repo.repo_id = commits.repo_id` shared
by both `code_changes` variants. -/
def codeChangesJoin (commits : List CommitRow) (repo : List RepoRow) :
    List (CommitRow × RepoRow) :=
  commits.flatMap (fun c =>
    (repo.filter (fun r => r.repo_id == c.repo_id)).map (fun r => (c, r)))

/-- `WHERE` clause of the group-scoped `code_changes` query (lines 70–71):
`commits.repo_id IN (SELECT repo_id FROM repo WHERE repo_group_id =
:repo_group_id) AND cmt_committer_date BETWEEN :begin_date AND :end_date`. -/
def groupWhere (repo : List RepoRow) (repo_group_id begin_date end_date : Int)
    (pr : CommitRow × RepoRow) : Bool :=
  ((repo.filter (fun r => r.repo_group_id == repo_group_id)).map
      (·.repo_id)).contains pr.1.repo_id
    && (begin_date ≤ pr.1.cmt_committer_date : Bool)
    && (pr.1.cmt_committer_date ≤ end_date : Bool)

/-- `WHERE` clause of the single-project `code_changes` query (lines 87–88):
`commits.repo_id = :repo_id AND cmt_committer_date BETWEEN ...`. -/
def repoWhere (rid begin_date end_date : Int) (pr : CommitRow × RepoRow) : Bool :=
  pr.1.repo_id == rid
    && (begin_date ≤ pr.1.cmt_committer_date : Bool)
    && (pr.1.cmt_committer_date ≤ end_date : Bool)

/-- `GROUP BY commits.repo_id, date, repo_name` key of the group variant
(`date` is the truncated committer date). -/
def groupKeyG (trunc : Int → Int) (pr : CommitRow × RepoRow) : Int × Int × String :=
  (pr.1.repo_id, trunc pr.1.cmt_committer_date, pr.2.repo_name)

/-- `GROUP BY date, repo_name` key of the single-project variant. -/
def groupKeyS (trunc : Int → Int) (pr : CommitRow × RepoRow) : Int × String :=
  (trunc pr.1.cmt_committer_date, pr.2.repo_name)

/-- Membership of a joined row in the group-variant group `k` (column-wise
comparison with the group-by key). -/
def groupCountPred (trunc : Int → Int) (k : Int × Int × String)
    (pr : CommitRow × RepoRow) : Bool :=
  pr.1.repo_id == k.1 && (trunc pr.1.cmt_committer_date == k.2.1)
    && (pr.2.repo_name == k.2.2)

/-- Membership of a joined row in the single-project-variant group `k`. -/
def repoCountPred (trunc : Int → Int) (k : Int × String)
    (pr : CommitRow × RepoRow) : Bool :=
  (trunc pr.1.cmt_committer_date == k.1) && (pr.2.repo_name == k.2)

/-- `code_changes`, group branch (lines 63–74): join `commits` with `repo`,
keep commits of repos in the group with `cmt_committer_date BETWEEN
:begin_date AND :end_date`, group by `(commits.repo_id, date, repo_name)`
counting commit hashes (`COUNT` of the non-null hash column = group size),
`ORDER BY commits.repo_id, date`.  `date_trunc` for the requested period is
the function argument `trunc`. -/
def code_changes_group (commits : List CommitRow) (repo : List RepoRow)
    (repo_group_id : Int) (trunc : Int → Int) (begin_date end_date : Int) :
    List GroupChangeRow :=
  let matching := (codeChangesJoin commits repo).filter
    (groupWhere repo repo_group_id begin_date end_date)
  let keys := firstDedup (matching.map (groupKeyG trunc))
  let rows := keys.map (fun k => GroupChangeRow.mk k.1 k.2.2 k.2.1
    (matching.filter (groupCountPred trunc k)).length)
  List.insertionSort (fun x y =>
    x.repo_id < y.repo_id ∨ (x.repo_id = y.repo_id ∧ x.date ≤ y.date)) rows

/-- `code_changes`, single-project branch (lines 81–91): same query
restricted by `commits.repo_id = :repo_id`, grouped by `(date, repo_name)`
and ordered by `date`; the `repo_id` column is not selected. -/
def code_changes_repo (commits : List CommitRow) (repo : List RepoRow)
    (rid : Int) (trunc : Int → Int) (begin_date end_date : Int) :
    List RepoChangeRow :=
  let matching := (codeChangesJoin commits repo).filter
    (repoWhere rid begin_date end_date)
  let keys := firstDedup (matching.map (groupKeyS trunc))
  let rows := keys.map (fun k => RepoChangeRow.mk k.2 k.1
    (matching.filter (repoCountPred trunc k)).length)
  List.insertionSort (fun x y => x.date ≤ y.date) rows

/-! ## `annual_commit_count_ranked_by_repo_in_repo_group` (`timeframe='all'`) -/

/-- A result row of the ranked annual commit metric:
`SELECT repo.repo_id, repo_name as name, SUM(added - removed - whitespace)
as net, patches`. -/
structure RankedRow where
  repo_id : Int
  name : String
  net : Int
  patches : Int
  deriving DecidableEq, Repr

/-- The shared body of both variants of
`annual_commit_count_ranked_by_repo_in_repo_group` with `timeframe='all'`
(lines 1768–1777 and 1805–1814): join `dm_repo_annual` (scope ids are repo
ids) with `repo` and `repo_groups`, restrict to `repo.repo_group_id = gid`,
group by `(repo.repo_id, patches)` summing the net line delta, order by
`net` descending, `LIMIT 10`. -/
def annualRankedAll (dm : List AnnualRow) (repo : List RepoRow)
    (repo_groups : List (Int × String)) (gid : Int) : List RankedRow :=
  let joined := dm.flatMap (fun d =>
    (repo.filter (fun r => r.repo_id == d.scope_id && r.repo_group_id == gid)).flatMap
      (fun r => (repo_groups.filter (fun g => g.1 == r.repo_group_id)).map
        (fun _ => (d, r))))
  let keys := firstDedup (joined.map (fun p =>
    (p.2.repo_id, p.2.repo_name, p.1.patches)))
  let rows := keys.map (fun k => RankedRow.mk k.1 k.2.1
    (((joined.filter (fun p =>
        p.2.repo_id == k.1 && p.2.repo_name == k.2.1 && p.1.patches == k.2.2)).map
      (fun p => p.1.added - p.1.removed - p.1.whitespace)).sum) k.2.2)
  (List.insertionSort (fun x y => y.net ≤ x.net) rows).take 10

/-- Group-scoped variant (lines 1805–1814): `WHERE repo.repo_group_id =
:repo_group_id`. -/
def annual_commit_count_ranked_group (dm : List AnnualRow) (repo : List RepoRow)
    (repo_groups : List (Int × String)) (repo_group_id : Int) : List RankedRow :=
  annualRankedAll dm repo repo_groups repo_group_id

/-- Single-project variant (lines 1768–1777): `WHERE repo.repo_group_id =
(select repo.repo_group_id from repo where repo.repo_id = :repo_id)` — the
scope is the whole group of the requested repo.  A scalar subquery with no
row yields SQL `NULL` (empty result); with several rows it is an error
(`none`). -/
def annual_commit_count_ranked_repo (dm : List AnnualRow) (repo : List RepoRow)
    (repo_groups : List (Int × String)) (rid : Int) : Option (List RankedRow) :=
  match (repo.filter (fun r => r.repo_id == rid)).map (·.repo_group_id) with
  | [] => some []
  | [g] => some (annualRankedAll dm repo repo_groups g)
  | _ => none

/-! ## Snapshot metrics: `fork_count`, `stars_count`, `watchers_count` -/

/-- One row of the append-only `repo_info` snapshot table. -/
structure RepoInfoRow where
  repo_info_id : Int
  repo_id : Int
  data_collection_date : Int
  fork_count : Int
  stars_count : Int
  watchers_count : Int
  deriving DecidableEq, Repr

/-- The anti-join `repo_info a LEFT JOIN repo_info b ON (a.repo_id =
b.repo_id AND a.repo_info_id < b.repo_info_id) ... WHERE b.repo_info_id IS
NULL`: the rows with the maximal snapshot id of their repo. -/
def latestSnapshots (repo_info : List RepoInfoRow) : List RepoInfoRow :=
  repo_info.filter (fun a =>
    !(repo_info.any (fun b => b.repo_id == a.repo_id && a.repo_info_id < b.repo_info_id)))

/-- The group-scoped "current count" query shared by `fork_count`,
`stars_count` and `watchers_count` (e.g. lines 1297–1306), parameterized by
the selected `repo_info` column: anti-join for the latest snapshot id, join
`repo`, restrict to the group. -/
def snapshotCountGroup (sel : RepoInfoRow → Int) (repo_info : List RepoInfoRow)
    (repo : List RepoRow) (gid : Int) : List (Int × String × Int) :=
  (((latestSnapshots repo_info).flatMap (fun a =>
      (repo.filter (fun r => r.repo_id == a.repo_id)).map (fun r => (a, r)))).filter
    (fun p => ((repo.filter (fun r => r.repo_group_id == gid)).map
      (·.repo_id)).contains p.1.repo_id)).map
    (fun p => (p.1.repo_id, p.2.repo_name, sel p.1))

/-- First element maximizing `f`, scanning left to right (`ORDER BY ... DESC
LIMIT 1` for a store whose sort is not stable: under the theorems'
hypotheses the maximum is unique, so the tie policy is irrelevant). -/
def maxByKey {α : Type} (f : α → Int) : List α → Option α
  | [] => none
  | r :: rs =>
      match maxByKey f rs with
      | none => some r
      | some m => if f r < f m then some m else some r

/-- The single-project "current count" query shared by `fork_count`,
`stars_count` and `watchers_count` (e.g. lines 1311–1316): join
`repo_info` with `repo` on the requested repo id, order by
`data_collection_date` descending, `LIMIT 1`. -/
def snapshotCountRepo (sel : RepoInfoRow → Int) (repo_info : List RepoInfoRow)
    (repo : List RepoRow) (rid : Int) : Option (String × Int) :=
  let joined := (repo_info.filter (fun a => a.repo_id == rid)).flatMap (fun a =>
    (repo.filter (fun r => r.repo_id == a.repo_id)).map (fun r => (a, r.repo_name)))
  (maxByKey (fun p => p.1.data_collection_date) joined).map (fun p => (p.2, sel p.1))

/-- `fork_count`, group branch (lines 1297–1306). -/
def fork_count_group (repo_info : List RepoInfoRow) (repo : List RepoRow)
    (gid : Int) : List (Int × String × Int) :=
  snapshotCountGroup (·.fork_count) repo_info repo gid

/-- `fork_count`, single-project branch (lines 1311–1316). -/
def fork_count_repo (repo_info : List RepoInfoRow) (repo : List RepoRow)
    (rid : Int) : Option (String × Int) :=
  snapshotCountRepo (·.fork_count) repo_info repo rid

/-- `stars_count`, group branch (lines 1504–1513). -/
def stars_count_group (repo_info : List RepoInfoRow) (repo : List RepoRow)
    (gid : Int) : List (Int × String × Int) :=
  snapshotCountGroup (·.stars_count) repo_info repo gid

/-- `stars_count`, single-project branch (lines 1518–1523). -/
def stars_count_repo (repo_info : List RepoInfoRow) (repo : List RepoRow)
    (rid : Int) : Option (String × Int) :=
  snapshotCountRepo (·.stars_count) repo_info repo rid

/-- `watchers_count`, group branch (lines 1579–1588). -/
def watchers_count_group (repo_info : List RepoInfoRow) (repo : List RepoRow)
    (gid : Int) : List (Int × String × Int) :=
  snapshotCountGroup (·.watchers_count) repo_info repo gid

/-- `watchers_count`, single-project branch (lines 1593–1598). -/
def watchers_count_repo (repo_info : List RepoInfoRow) (repo : List RepoRow)
    (rid : Int) : Option (String × Int) :=
  snapshotCountRepo (·.watchers_count) repo_info repo rid

/-! ## Result column sets of the two-variant metrics -/

/-- Columns of the group-scoped `code_changes` projection (lines 64–68). -/
def code_changes_group_columns : List String :=
  ["repo_id", "repo_name", "date", "commit_count"]

/-- Columns of the single-project `code_changes` projection (lines 82–85). -/
def code_changes_repo_columns : List String :=
  ["repo_name", "date", "commit_count"]

/-- `code_changes` selects its query by the single branch
`if not repo_id` (line 62); this is the resulting column set. -/
def code_changes_columns (repo_id : Option Int) : List String :=
  if pyFalsy repo_id then code_changes_group_columns else code_changes_repo_columns

/-- Columns of the group-scoped `issues_open_age` projection (line 1082). -/
def issues_open_age_group_columns : List String :=
  ["repo_id", "repo_name", "issue_id", "date", "open_date"]

/-- Columns of the single-project `issues_open_age` projection (line 1095):
the query still selects `repo.repo_id`. -/
def issues_open_age_repo_columns : List String :=
  ["repo_id", "repo_name", "issue_id", "date", "open_date"]

/-- `issues_open_age` selects its query by the single branch
`if not repo_id` (line 1080); this is the resulting column set. -/
def issues_open_age_columns (repo_id : Option Int) : List String :=
  if pyFalsy repo_id then issues_open_age_group_columns else issues_open_age_repo_columns

/-! ## `downloaded_repos`: url rewriting and base64 -/

/-- Python `datum.split('//')` on a UTF-8 byte string (47 is `'/'`):
non-overlapping left-to-right split on the two-byte separator. -/
def splitSlashes : List ℕ → List (List ℕ)
  | [] => [[]]
  | [b] => [[b]]
  | b :: b2 :: rest =>
      if b = 47 ∧ b2 = 47 then [] :: splitSlashes rest
      else
        match splitSlashes (b2 :: rest) with
        | [] => [[b]]
        | p :: ps => (b :: p) :: ps

/-- `downloaded_repos`, line 2136: `datum.split('//')[1]` — the second
field of the split; `none` models the `IndexError` when `'//'` does not
occur. -/
def urlOf (repo_git : List ℕ) : Option (List ℕ) :=
  (splitSlashes repo_git).get? 1

/-- The bytes up to (excluding) the first `'//'`; the whole string if there
is none. -/
def upToSlashes : List ℕ → List ℕ
  | [] => []
  | [b] => [b]
  | b :: b2 :: rest =>
      if b = 47 ∧ b2 = 47 then [] else b :: upToSlashes (b2 :: rest)

/-- The bytes strictly after the first `'//'`, if any — the reading of the
claim's "everything up to and including the first `'//'` removed", written
from the spec's words to compare with `urlOf`. -/
def afterSlashes : List ℕ → Option (List ℕ)
  | [] => none
  | [_] => none
  | b :: b2 :: rest =>
      if b = 47 ∧ b2 = 47 then some rest else afterSlashes (b2 :: rest)

/-- The base64 alphabet `A–Z a–z 0–9 + /` as ASCII codes. -/
def b64Table : List ℕ :=
  (List.range 26).map (· + 65) ++ (List.range 26).map (· + 97)
    ++ (List.range 10).map (· + 48) ++ [43, 47]

/-- The base64 digit for a 6-bit group. -/
def encodeChar (n : ℕ) : ℕ :=
  b64Table.getD n 0

/-- The 6-bit group of a base64 digit (`none` for a byte outside the
alphabet). -/
def decodeChar (c : ℕ) : Option ℕ :=
  (List.range 64).find? (fun n => b64Table.getD n 0 == c)

/-- `base64.b64encode` (line 2144) on a byte string: 3-byte groups become
4 base64 digits; final groups of 1 or 2 bytes are padded with `'='`
(ASCII 61). -/
def b64encode : List ℕ → List ℕ
  | [] => []
  | [b1] => [encodeChar (b1 / 4), encodeChar (b1 % 4 * 16), 61, 61]
  | [b1, b2] =>
      [encodeChar (b1 / 4), encodeChar (b1 % 4 * 16 + b2 / 16),
       encodeChar (b2 % 16 * 4), 61]
  | b1 :: b2 :: b3 :: rest =>
      encodeChar (b1 / 4) :: encodeChar (b1 % 4 * 16 + b2 / 16)
        :: encodeChar (b2 % 16 * 4 + b3 / 64) :: encodeChar (b3 % 64)
        :: b64encode rest

/-- Standard base64 decoding, the inverse direction of the round-trip
claim (the source only encodes; this is the checker the claim's
"base64-decoding" refers to). -/
def b64decode : List ℕ → Option (List ℕ)
  | [] => some []
  | c1 :: c2 :: c3 :: c4 :: rest =>
      if c4 == 61 then
        if rest = [] then
          if c3 == 61 then
            do
              let n1 ← decodeChar c1
              let n2 ← decodeChar c2
              pure [n1 * 4 + n2 / 16]
          else
            do
              let n1 ← decodeChar c1
              let n2 ← decodeChar c2
              let n3 ← decodeChar c3
              pure [n1 * 4 + n2 / 16, n2 % 16 * 16 + n3 / 4]
        else none
      else
        do
          let n1 ← decodeChar c1
          let n2 ← decodeChar c2
          let n3 ← decodeChar c3
          let n4 ← decodeChar c4
          let tail ← b64decode rest
          pure ((n1 * 4 + n2 / 16) :: (n2 % 16 * 16 + n3 / 4)
            :: (n3 % 4 * 64 + n4) :: tail)
  | _ => none

/-- Structural equality of `Except` results is decidable. -/
instance instExceptDecEq {ε α : Type} [DecidableEq ε] [DecidableEq α] :
    DecidableEq (Except ε α)
  | Except.error a, Except.error b =>
      if h : a = b then isTrue (by rw [h])
      else isFalse (fun hh => h (by injection hh))
  | Except.error _, Except.ok _ => isFalse (fun hh => Except.noConfusion hh)
  | Except.ok _, Except.error _ => isFalse (fun hh => Except.noConfusion hh)
  | Except.ok a, Except.ok b =>
      if h : a = b then isTrue (by rw [h])
      else isFalse (fun hh => h (by injection hh))

/-! ## Lemmas about the truncating scan -/

theorem prefixSum_zero (rows : List CommitterRow) : prefixSum rows 0 = 0 := by
  simp [prefixSum]

theorem prefixSum_cons_succ (r : CommitterRow) (rest : List CommitterRow) (m : ℕ) :
    prefixSum (r :: rest) (m + 1) = r.commits + prefixSum rest m := by
  simp [prefixSum]

theorem prefixSum_one (r : CommitterRow) (rest : List CommitterRow) :
    prefixSum (r :: rest) 1 = r.commits := by
  simp [prefixSum]

/-- A prefix sum of a list of nonnegative entries is at most the total sum. -/
theorem prefixSum_le_total (rows : List CommitterRow) (n : ℕ)
    (hpos : ∀ r ∈ rows, 0 ≤ r.commits) :
    prefixSum rows n ≤ prefixSum rows rows.length := by
  unfold prefixSum
  rw [List.take_length]
  refine List.Sublist.sum_le_sum ?_ ?_
  · exact List.Sublist.map _ (List.take_sublist n rows)
  · intro a ha
    obtain ⟨r, hr, rfl⟩ := List.mem_map.mp ha
    exact hpos r hr

theorem prefixSum_nonneg (rows : List CommitterRow) (n : ℕ)
    (hpos : ∀ r ∈ rows, 0 ≤ r.commits) : 0 ≤ prefixSum rows n := by
  unfold prefixSum
  refine List.sum_nonneg ?_
  intro a ha
  obtain ⟨r, hr, rfl⟩ := List.mem_map.mp ha
  exact hpos r (List.mem_of_mem_take hr)

/-- The final `cumsum` of the scan is the initial value plus the sum of the
rows the scan kept. -/
theorem scanTrunc_snd (k : ℤ) : ∀ (rows : List CommitterRow) (c : ℤ),
    (scanTrunc k c rows).2 = c + ((scanTrunc k c rows).1.map (·.commits)).sum := by
  intro rows
  induction rows with
  | nil => intro c; simp [scanTrunc]
  | cons r rest ih =>
    intro c
    simp only [scanTrunc]
    by_cases h : k ≤ c + r.commits
    · simp [h]
    · simp only [if_neg h, List.map_cons, List.sum_cons]
      rw [ih (c + r.commits)]
      ring

/-- Full characterization of the truncating scan: either no prefix ever
reaches the threshold and the whole list is kept, or the scan stops at the
first (hence shortest, necessarily non-empty) prefix whose running sum
reaches it. -/
theorem scanTrunc_spec (k : ℤ) : ∀ (rows : List CommitterRow) (c : ℤ),
    (scanTrunc k c rows = (rows, c + prefixSum rows rows.length)
        ∧ ∀ m, 1 ≤ m → m ≤ rows.length → c + prefixSum rows m < k)
    ∨ (∃ n, 1 ≤ n ∧ n ≤ rows.length
        ∧ scanTrunc k c rows = (rows.take n, c + prefixSum rows n)
        ∧ k ≤ c + prefixSum rows n
        ∧ ∀ m, 1 ≤ m → m < n → c + prefixSum rows m < k) := by
  intro rows
  induction rows with
  | nil =>
    intro c
    left
    constructor
    · simp [scanTrunc, prefixSum]
    · intro m h1 h2
      simp at h2
      omega
  | cons r rest ih =>
    intro c
    by_cases h : k ≤ c + r.commits
    · right
      refine ⟨1, le_refl 1, by simp, ?_, ?_, ?_⟩
      · simp [scanTrunc, if_pos h, prefixSum_one]
      · rw [prefixSum_one]; exact h
      · intro m h1 h2; omega
    · rcases ih (c + r.commits) with ⟨heq, hlt⟩ | ⟨n, hn1, hnle, heq, hge, hlt⟩
      · left
        constructor
        · simp only [scanTrunc, if_neg h, heq, List.length_cons, prefixSum_cons_succ]
          rw [add_assoc]
        · intro m h1 h2
          match m, h1 with
          | 1, _ =>
            rw [prefixSum_one]
            exact lt_of_not_le h
          | (m' + 2), _ =>
            rw [prefixSum_cons_succ]
            have := hlt (m' + 1) (by omega) (by simpa using h2)
            linarith
      · right
        refine ⟨n + 1, by omega, by simp; omega, ?_, ?_, ?_⟩
        · simp only [scanTrunc, if_neg h, heq, List.take_succ_cons, prefixSum_cons_succ]
          rw [add_assoc]
        · rw [prefixSum_cons_succ]; linarith
        · intro m h1 h2
          match m, h1 with
          | 1, _ =>
            rw [prefixSum_one]
            exact lt_of_not_le h
          | (m' + 2), _ =>
            rw [prefixSum_cons_succ]
            have := hlt (m' + 1) (by omega) (by omega)
            linarith

/-! ## Lemmas about the rounded threshold -/

theorem pyRoundTimes_zero (t : ℤ) : pyRoundTimes 0 t = 0 := by
  have h0 : (0:ℚ).num = 0 := rfl
  have h1 : (0:ℚ).den = 1 := rfl
  simp [pyRoundTimes, h0, h1]

theorem pyRoundTimes_one (t : ℤ) : pyRoundTimes 1 t = t := by
  have h0 : (1:ℚ).num = 1 := rfl
  have h1 : (1:ℚ).den = 1 := rfl
  simp [pyRoundTimes, h0, h1]

theorem pyRoundTimes_nonneg (theta : ℚ) (t : ℤ) (h0 : 0 ≤ theta) (ht : 0 ≤ t) :
    0 ≤ pyRoundTimes theta t := by
  have hb : (0:ℤ) < (theta.den : ℤ) := by exact_mod_cast theta.den_pos
  have hnum : 0 ≤ theta.num := Rat.num_nonneg.mpr h0
  have hf : 0 ≤ theta.num * t / (theta.den : ℤ) :=
    Int.ediv_nonneg (mul_nonneg hnum ht) (le_of_lt hb)
  simp only [pyRoundTimes]
  split_ifs <;> omega

theorem pyRoundTimes_le (theta : ℚ) (t : ℤ) (_h0 : 0 ≤ theta) (h1 : theta ≤ 1)
    (ht : 0 ≤ t) : pyRoundTimes theta t ≤ t := by
  have hb : (0:ℤ) < (theta.den : ℤ) := by exact_mod_cast theta.den_pos
  have hnum : theta.num ≤ (theta.den : ℤ) := by
    have := Rat.le_def.mp h1
    simpa using this
  have hale : theta.num * t ≤ (theta.den : ℤ) * t := by
    exact mul_le_mul_of_nonneg_right hnum ht
  have hdm : (theta.den : ℤ) * (theta.num * t / (theta.den : ℤ))
      + theta.num * t % (theta.den : ℤ) = theta.num * t :=
    Int.ediv_add_emod _ _
  have hr0 : 0 ≤ theta.num * t % (theta.den : ℤ) :=
    Int.emod_nonneg _ (by omega)
  have hflet : (theta.den : ℤ) * (theta.num * t / (theta.den : ℤ))
      ≤ (theta.den : ℤ) * t := by omega
  have hfle : theta.num * t / (theta.den : ℤ) ≤ t :=
    le_of_mul_le_mul_left hflet hb
  simp only [pyRoundTimes]
  split_ifs with hc1 hc2 hc3
  · exact hfle
  · -- the remainder is positive, so the floor is strictly below `t`
    have hrpos : 0 < theta.num * t % (theta.den : ℤ) := by omega
    have : (theta.den : ℤ) * (theta.num * t / (theta.den : ℤ))
        < (theta.den : ℤ) * t := by omega
    have := lt_of_mul_lt_mul_left this (le_of_lt hb)
    omega
  · exact hfle
  · have hrpos : 0 < theta.num * t % (theta.den : ℤ) := by omega
    have : (theta.den : ℤ) * (theta.num * t / (theta.den : ℤ))
        < (theta.den : ℤ) * t := by omega
    have := lt_of_mul_lt_mul_left this (le_of_lt hb)
    omega

/-! ## Lemmas about `topCommittersPost` and `top_committers` -/

/-- Whenever the post-processing returns a table, the commit counts of the
returned rows (synthetic remainder row included) sum to `total`: the
remainder row absorbs exactly `total` minus the scan's `cumsum`. -/
theorem topCommittersPost_sum (scope total : ℤ) (theta : ℚ)
    (rows res : List CommitterRow)
    (h : topCommittersPost scope total theta rows = Except.ok res) :
    (res.map (·.commits)).sum = total := by
  simp only [topCommittersPost] at h
  rcases hscan : scanTrunc (pyRoundTimes theta total) 0 rows with ⟨trunc, cumsum⟩
  rw [hscan] at h
  have hsnd := scanTrunc_snd (pyRoundTimes theta total) rows 0
  rw [hscan] at hsnd
  cases trunc with
  | nil => exact absurd h (by simp)
  | cons first rest =>
    have hres : res = (first :: rest)
        ++ [⟨scope, first.scope_name, "other_contributors", total - cumsum⟩] := by
      simpa using h.symm
    subst hres
    simp only [List.map_append, List.sum_append, List.map_cons, List.sum_cons,
      List.map_nil, List.sum_nil]
    simp at hsnd
    omega

/-- C1: for every threshold in [0, 1] and every scope/year, whenever
`top_committers` returns a table, the commit counts of all returned rows —
the synthetic `other_contributors` remainder row included — sum exactly to
the scope's total commits `T`, i.e. the sum of the `patches` column of the
rollup rows matching the scope and year.  (In the embedding both queries
read the same rollup table, so the consistency hypothesis of the claim
holds by construction; a returned table also implies the threshold was in
range.) -/
theorem top_committers_sum_eq_total (dmGroup dmRepo : List AnnualRow)
    (groupNames repoNames : List (Int × String)) (repo_group_id : Int)
    (repo_id : Option Int) (year : Int) (threshold : ℚ)
    (res : List CommitterRow)
    (h : top_committers dmGroup dmRepo groupNames repoNames repo_group_id
      repo_id year threshold = Except.ok res) :
    (res.map (·.commits)).sum
      = (((scopeTbl repo_id dmGroup dmRepo).filter (fun r =>
          r.year == year && r.scope_id == scopeId repo_id repo_group_id)).map
        (·.patches)).sum := by
  simp only [top_committers] at h
  split_ifs at h
  rcases htot : totalCommitsQuery (scopeTbl repo_id dmGroup dmRepo) year
      (scopeId repo_id repo_group_id) with _ | total
  · rw [htot] at h
    exact absurd h (by simp)
  · rw [htot] at h
    have hsum := topCommittersPost_sum _ _ _ _ _ h
    unfold totalCommitsQuery at htot
    by_cases hemp : ((scopeTbl repo_id dmGroup dmRepo).filter (fun r =>
        r.year == year && r.scope_id == scopeId repo_id repo_group_id)).isEmpty
    · rw [if_pos hemp] at htot
      exact absurd htot (by simp)
    · rw [if_neg hemp] at htot
      have : total = (((scopeTbl repo_id dmGroup dmRepo).filter (fun r =>
          r.year == year && r.scope_id == scopeId repo_id repo_group_id)).map
        (·.patches)).sum := by
        injection htot.symm
      rw [hsum, this]

/-- Witness for C1 at a concrete store: group 1 in year 2020 has rollup
rows alice/6 and bob/4, threshold 1/2; the returned table sums to 10. -/
theorem top_committers_sum_eq_total_witness :
    (([⟨1, "grp", "alice", 6⟩, ⟨1, "grp", "other_contributors", 4⟩] :
        List CommitterRow).map (·.commits)).sum
      = ((([⟨1, "alice", 2020, 6, 0, 0, 0⟩, ⟨1, "bob", 2020, 4, 0, 0, 0⟩] :
          List AnnualRow).filter (fun r =>
            r.year == 2020 && r.scope_id == scopeId none 1)).map
        (·.patches)).sum :=
  top_committers_sum_eq_total
    [⟨1, "alice", 2020, 6, 0, 0, 0⟩, ⟨1, "bob", 2020, 4, 0, 0, 0⟩] []
    [(1, "grp")] [] 1 none 2020 (mkRat 1 2)
    [⟨1, "grp", "alice", 6⟩, ⟨1, "grp", "other_contributors", 4⟩] (by decide)

/-- `topCommittersPost` can only fail with the empty-table indexing error,
never with the threshold-range message. -/
theorem topCommittersPost_error (scope total : ℤ) (theta : ℚ)
    (rows : List CommitterRow) (msg : String)
    (h : topCommittersPost scope total theta rows = Except.error msg) :
    msg = "single positional indexer is out-of-bounds" := by
  simp only [topCommittersPost] at h
  rcases hscan : scanTrunc (pyRoundTimes theta total) 0 rows with ⟨trunc, cumsum⟩
  rw [hscan] at h
  cases trunc with
  | nil =>
    simp only [] at h
    injection h with h
    exact h.symm
  | cons first rest => exact absurd h (by simp)

/-- C3: `top_committers` fails with its invalid-argument error exactly when
the threshold is outside [0, 1] — in particular it fails for -1/10 and
11/10 and returns that error for no in-range threshold (0 and 1
included). -/
theorem top_committers_threshold_check (dmGroup dmRepo : List AnnualRow)
    (groupNames repoNames : List (Int × String)) (repo_group_id : Int)
    (repo_id : Option Int) (year : Int) (threshold : ℚ) :
    top_committers dmGroup dmRepo groupNames repoNames repo_group_id
        repo_id year threshold = Except.error "threshold should be between 0 and 1"
      ↔ (threshold < 0 ∨ threshold > 1) := by
  constructor
  · intro h
    by_contra hrange
    simp only [top_committers] at h
    rw [if_neg hrange] at h
    rcases htot : totalCommitsQuery (scopeTbl repo_id dmGroup dmRepo) year
        (scopeId repo_id repo_group_id) with _ | total
    · rw [htot] at h
      injection h with h
      exact absurd h.symm (by decide)
    · rw [htot] at h
      have := topCommittersPost_error _ _ _ _ _ h
      exact absurd this (by decide)
  · intro h
    unfold top_committers
    rw [if_pos h]

/-- C8: when the rollup table has no row for the requested scope/year (the
scope's total commits would be 0), `top_committers` with any in-range
threshold does not return a table: the `SUM(patches)` query yields SQL
`NULL` and the `int(...)` conversion fails before the contributor scan and
before the synthetic remainder row could be built. -/
theorem top_committers_empty_scope_fails (dmGroup dmRepo : List AnnualRow)
    (groupNames repoNames : List (Int × String)) (repo_group_id : Int)
    (repo_id : Option Int) (year : Int) (threshold : ℚ)
    (h0 : 0 ≤ threshold) (h1 : threshold ≤ 1)
    (hemp : (scopeTbl repo_id dmGroup dmRepo).filter (fun r =>
      r.year == year && r.scope_id == scopeId repo_id repo_group_id) = []) :
    top_committers dmGroup dmRepo groupNames repoNames repo_group_id
      repo_id year threshold = Except.error "cannot convert float NaN to integer" := by
  simp only [top_committers]
  rw [if_neg (by push_neg; exact ⟨h0, h1⟩)]
  have : totalCommitsQuery (scopeTbl repo_id dmGroup dmRepo) year
      (scopeId repo_id repo_group_id) = none := by
    unfold totalCommitsQuery
    rw [hemp]
    rfl
  rw [this]

/-- Witness for C8: an empty store, threshold 1/2. -/
theorem top_committers_empty_scope_fails_witness :
    top_committers [] [] [(1, "grp")] [] 1 none 2020 (mkRat 1 2)
      = Except.error "cannot convert float NaN to integer" :=
  top_committers_empty_scope_fails [] [] [(1, "grp")] [] 1 none 2020
    (mkRat 1 2) (by decide) (by decide) (by decide)

/-- C2 (amended): for a non-empty contributor table in descending commit
order with nonnegative counts summing to `total`, and any threshold in
[0, 1], the rows returned before the remainder row are the smallest
NON-EMPTY prefix whose cumulative sum reaches
`round(threshold * total)` — non-empty because the loop accumulates a row
before testing the threshold, so when the rounded threshold is 0 the first
row is still returned (the claim's "smallest prefix", which would be empty
then, is not). -/
theorem top_committers_smallest_nonempty_prefix (scope total : ℤ) (theta : ℚ)
    (rows : List CommitterRow) (hne : rows ≠ [])
    (hdesc : List.Pairwise (fun a b => b.commits ≤ a.commits) rows)
    (hpos : ∀ r ∈ rows, 0 ≤ r.commits)
    (hsum : prefixSum rows rows.length = total)
    (h0 : 0 ≤ theta) (h1 : theta ≤ 1) :
    ∃ res n, topCommittersPost scope total theta rows = Except.ok res
      ∧ res.dropLast = rows.take n
      ∧ 1 ≤ n ∧ n ≤ rows.length
      ∧ pyRoundTimes theta total ≤ prefixSum rows n
      ∧ ∀ m, 1 ≤ m → m < n → prefixSum rows m < pyRoundTimes theta total := by
  have htotal : 0 ≤ total := hsum ▸ prefixSum_nonneg rows rows.length hpos
  have hk : pyRoundTimes theta total ≤ total := pyRoundTimes_le theta total h0 h1 htotal
  have hlen : 1 ≤ rows.length := List.length_pos.mpr hne
  rcases scanTrunc_spec (pyRoundTimes theta total) rows 0 with
    ⟨_, hlt⟩ | ⟨n, hn1, hnle, heq, hge, hlt⟩
  · exfalso
    have := hlt rows.length hlen (le_refl _)
    omega
  · obtain ⟨first, rest, rfl⟩ := List.exists_cons_of_ne_nil hne
    obtain ⟨n', rfl⟩ : ∃ n', n = n' + 1 := ⟨n - 1, by omega⟩
    refine ⟨(first :: List.take n' rest)
        ++ [⟨scope, first.scope_name, "other_contributors",
            total - prefixSum (first :: rest) (n' + 1)⟩],
      n' + 1, ?_, ?_, hn1, hnle, by omega, ?_⟩
    · simp only [topCommittersPost]
      rw [heq, List.take_succ_cons]
      simp
    · rw [List.dropLast_concat, List.take_succ_cons]
    · intro m hm1 hm2
      have := hlt m hm1 hm2
      omega

/-- Counterexample to C2 as stated: with threshold 0 the rounded threshold
is 0, so the smallest prefix whose cumulative sum reaches it is the EMPTY
prefix, yet `top_committers` still returns the first contributor row before
the remainder row. -/
theorem top_committers_smallest_prefix_counterexample :
    top_committers [⟨1, "alice", 2020, 6, 0, 0, 0⟩, ⟨1, "bob", 2020, 4, 0, 0, 0⟩]
        [] [(1, "grp")] [] 1 none 2020 0
      = Except.ok [⟨1, "grp", "alice", 6⟩, ⟨1, "grp", "other_contributors", 4⟩]
    ∧ pyRoundTimes 0 10
        ≤ prefixSum (committersQuery
            [⟨1, "alice", 2020, 6, 0, 0, 0⟩, ⟨1, "bob", 2020, 4, 0, 0, 0⟩]
            [(1, "grp")] 2020 1) 0
    ∧ ([⟨1, "grp", "alice", 6⟩, ⟨1, "grp", "other_contributors", 4⟩] :
          List CommitterRow).dropLast
        ≠ (committersQuery
            [⟨1, "alice", 2020, 6, 0, 0, 0⟩, ⟨1, "bob", 2020, 4, 0, 0, 0⟩]
            [(1, "grp")] 2020 1).take 0 :=
  ⟨by decide, by decide, by decide⟩

/-- Witness for C2 (amended): rows alice/6, bob/4 with total 10 and
threshold 1/2 (rounded threshold 5): the returned prefix is the first row
alone. -/
theorem top_committers_smallest_nonempty_prefix_witness :
    ∃ res n, topCommittersPost 1 10 (mkRat 1 2)
        [⟨1, "grp", "alice", 6⟩, ⟨1, "grp", "bob", 4⟩] = Except.ok res
      ∧ res.dropLast = ([⟨1, "grp", "alice", 6⟩, ⟨1, "grp", "bob", 4⟩] :
          List CommitterRow).take n
      ∧ 1 ≤ n ∧ n ≤ ([⟨1, "grp", "alice", 6⟩, ⟨1, "grp", "bob", 4⟩] :
          List CommitterRow).length
      ∧ pyRoundTimes (mkRat 1 2) 10
          ≤ prefixSum [⟨1, "grp", "alice", 6⟩, ⟨1, "grp", "bob", 4⟩] n
      ∧ ∀ m, 1 ≤ m → m < n →
          prefixSum [⟨1, "grp", "alice", 6⟩, ⟨1, "grp", "bob", 4⟩] m
            < pyRoundTimes (mkRat 1 2) 10 :=
  top_committers_smallest_nonempty_prefix 1 10 (mkRat 1 2)
    [⟨1, "grp", "alice", 6⟩, ⟨1, "grp", "bob", 4⟩]
    (by decide) (by decide) (by decide) (by decide) (by decide) (by decide)

/-- C4 (amended): for a non-empty contributor table with nonnegative commit
counts, threshold 0 returns the FIRST contributor row followed by the
remainder row with count `T - first.commits` — not just the remainder row
with count `T`, because the loop adds a row before testing the threshold —
and threshold 1, when the table's counts sum to `T`, returns a table whose
remainder row has commit count 0. -/
theorem top_committers_extreme_thresholds (scope total : ℤ)
    (first : CommitterRow) (rest : List CommitterRow)
    (hpos : ∀ r ∈ first :: rest, 0 ≤ r.commits) :
    (topCommittersPost scope total 0 (first :: rest)
        = Except.ok [first, ⟨scope, first.scope_name, "other_contributors",
            total - first.commits⟩])
    ∧ (prefixSum (first :: rest) (first :: rest).length = total →
        ∃ pre, topCommittersPost scope total 1 (first :: rest)
          = Except.ok (pre ++ [⟨scope, first.scope_name, "other_contributors", 0⟩])) := by
  constructor
  · have hf : (0:ℤ) ≤ first.commits := hpos first (by simp)
    simp only [topCommittersPost, pyRoundTimes_zero, scanTrunc]
    rw [if_pos (by omega : (0:ℤ) ≤ 0 + first.commits)]
    simp
  · intro hsum
    rcases scanTrunc_spec (pyRoundTimes 1 total) (first :: rest) 0 with
      ⟨_, hlt⟩ | ⟨n, hn1, hnle, heq, hge, _⟩
    · exfalso
      have := hlt (first :: rest).length (by simp) (le_refl _)
      rw [pyRoundTimes_one] at this
      omega
    · have hback : prefixSum (first :: rest) n ≤ total :=
        hsum ▸ prefixSum_le_total (first :: rest) n hpos
      rw [pyRoundTimes_one] at hge
      have hexact : prefixSum (first :: rest) n = total := by omega
      obtain ⟨n', rfl⟩ : ∃ n', n = n' + 1 := ⟨n - 1, by omega⟩
      refine ⟨first :: List.take n' rest, ?_⟩
      rw [pyRoundTimes_one] at heq
      simp only [topCommittersPost, pyRoundTimes_one]
      rw [heq, List.take_succ_cons]
      simp [hexact]

/-- Counterexample to C4 as stated: with threshold 0 on a scope with total
commits 10, the returned table is the top contributor row plus a remainder
row of 4 — not a single remainder row carrying the full total 10. -/
theorem top_committers_extreme_thresholds_counterexample :
    top_committers [⟨1, "alice", 2020, 6, 0, 0, 0⟩, ⟨1, "bob", 2020, 4, 0, 0, 0⟩]
        [] [(1, "grp")] [] 1 none 2020 0
      = Except.ok [⟨1, "grp", "alice", 6⟩, ⟨1, "grp", "other_contributors", 4⟩]
    ∧ (Except.ok [⟨1, "grp", "alice", 6⟩, ⟨1, "grp", "other_contributors", 4⟩] :
          Except String (List CommitterRow))
        ≠ Except.ok [⟨1, "grp", "other_contributors", 10⟩] :=
  ⟨by decide, by decide⟩

/-- Witness for C4 (amended) at rows alice/6, bob/4 with total 10. -/
theorem top_committers_extreme_thresholds_witness :
    (topCommittersPost 1 10 0 [⟨1, "grp", "alice", 6⟩, ⟨1, "grp", "bob", 4⟩]
        = Except.ok [⟨1, "grp", "alice", 6⟩,
            ⟨1, "grp", "other_contributors", 10 - 6⟩])
    ∧ (prefixSum [⟨1, "grp", "alice", 6⟩, ⟨1, "grp", "bob", 4⟩]
          ([⟨1, "grp", "alice", 6⟩, ⟨1, "grp", "bob", 4⟩] :
            List CommitterRow).length = 10 →
        ∃ pre, topCommittersPost 1 10 1
            [⟨1, "grp", "alice", 6⟩, ⟨1, "grp", "bob", 4⟩]
          = Except.ok (pre ++ [⟨1, "grp", "other_contributors", 0⟩])) :=
  top_committers_extreme_thresholds 1 10 ⟨1, "grp", "alice", 6⟩
    [⟨1, "grp", "bob", 4⟩] (by decide)

/-- C9 (amended): for a non-empty contributor table with NONNEGATIVE commit
counts whose total sum stays strictly below the rounded threshold (possible
when the reported total commits disagrees with the table, i.e. inconsistent
rollup data), the scan never reaches the threshold, so every contributor
row is returned untruncated, followed by a remainder row carrying
`total_commits` minus the sum of all contributor rows.  The nonnegativity
hypothesis is what the original claim is missing. -/
theorem top_committers_unreached_threshold (scope total : ℤ) (theta : ℚ)
    (first : CommitterRow) (rest : List CommitterRow)
    (hpos : ∀ r ∈ first :: rest, 0 ≤ r.commits)
    (hlt : prefixSum (first :: rest) (first :: rest).length
      < pyRoundTimes theta total) :
    topCommittersPost scope total theta (first :: rest)
      = Except.ok ((first :: rest)
          ++ [⟨scope, first.scope_name, "other_contributors",
              total - prefixSum (first :: rest) (first :: rest).length⟩]) := by
  rcases scanTrunc_spec (pyRoundTimes theta total) (first :: rest) 0 with
    ⟨heq, _⟩ | ⟨n, hn1, hnle, heq, hge, _⟩
  · simp only [topCommittersPost]
    rw [heq]
    simp
  · exfalso
    have := prefixSum_le_total (first :: rest) n hpos
    omega

/-- Counterexample to C9 as stated (without the nonnegativity hypothesis):
commit counts may be negative, the total sum of the rows (-5) is then below
the rounded threshold round(1/2 · -5) = -2, yet the scan still stops at the
first row (5 ≥ -2) and truncates the table instead of returning every
row. -/
theorem top_committers_unreached_counterexample :
    totalCommitsQuery [⟨1, "a", 2020, 5, 0, 0, 0⟩, ⟨1, "b", 2020, -10, 0, 0, 0⟩]
        2020 1 = some (-5)
    ∧ committersQuery [⟨1, "a", 2020, 5, 0, 0, 0⟩, ⟨1, "b", 2020, -10, 0, 0, 0⟩]
        [(1, "g")] 2020 1 = [⟨1, "g", "a", 5⟩, ⟨1, "g", "b", -10⟩]
    ∧ prefixSum [⟨1, "g", "a", 5⟩, ⟨1, "g", "b", -10⟩] 2
        < pyRoundTimes (mkRat 1 2) (-5)
    ∧ top_committers [⟨1, "a", 2020, 5, 0, 0, 0⟩, ⟨1, "b", 2020, -10, 0, 0, 0⟩]
        [] [(1, "g")] [] 1 none 2020 (mkRat 1 2)
      = Except.ok [⟨1, "g", "a", 5⟩, ⟨1, "g", "other_contributors", -10⟩]
    ∧ (Except.ok [⟨1, "g", "a", 5⟩, ⟨1, "g", "other_contributors", -10⟩] :
          Except String (List CommitterRow))
      ≠ Except.ok ([⟨1, "g", "a", 5⟩, ⟨1, "g", "b", -10⟩]
          ++ [⟨1, "g", "other_contributors", 0⟩]) :=
  ⟨by decide, by decide, by decide, by decide, by decide⟩

/-- Witness for C9 (amended): a single row of 5 commits with a reported
total of 20 and threshold 1/2 (rounded threshold 10 > 5). -/
theorem top_committers_unreached_threshold_witness :
    topCommittersPost 1 20 (mkRat 1 2) [⟨1, "g", "a", 5⟩]
      = Except.ok ([⟨1, "g", "a", 5⟩]
          ++ [⟨1, "g", "other_contributors",
              20 - prefixSum [⟨1, "g", "a", 5⟩]
                ([⟨1, "g", "a", 5⟩] : List CommitterRow).length⟩]) :=
  top_committers_unreached_threshold 1 20 (mkRat 1 2) ⟨1, "g", "a", 5⟩ []
    (by decide) (by decide)

/-! ## Lemmas about the snapshot metrics -/

theorem flatMap_eq_map_of_singleton {α β : Type} (f : α → List β) (g : α → β) :
    ∀ (l : List α), (∀ a ∈ l, f a = [g a]) → l.flatMap f = l.map g
  | [], _ => rfl
  | a :: as, h => by
      simp only [List.flatMap_cons, List.map_cons, h a (by simp)]
      rw [flatMap_eq_map_of_singleton f g as (fun x hx => h x (by simp [hx]))]
      rfl

theorem maxByKey_mem {α : Type} (f : α → Int) :
    ∀ (l : List α) (x : α), maxByKey f l = some x → x ∈ l
  | [], x, h => by simp [maxByKey] at h
  | a :: as, x, h => by
      rcases hm : maxByKey f as with _ | m
      · simp only [maxByKey, hm] at h
        injection h with h
        simp [h]
      · simp only [maxByKey, hm] at h
        by_cases hc : f a < f m
        · rw [if_pos hc] at h
          injection h with h
          exact List.mem_cons_of_mem a (h ▸ maxByKey_mem f as m hm)
        · rw [if_neg hc] at h
          injection h with h
          simp [h]

theorem maxByKey_eq_of_max {α : Type} (f : α → Int) :
    ∀ (l : List α) (x : α), x ∈ l → (∀ y ∈ l, y = x ∨ f y < f x) →
      maxByKey f l = some x
  | [], x, hx, _ => absurd hx (by simp)
  | a :: as, x, hx, hmax => by
      rcases hm : maxByKey f as with _ | m
      · -- no maximum in `as` means `as` is empty, so `a = x`
        cases as with
        | nil =>
          simp at hx
          simp [maxByKey, hx]
        | cons b bs =>
          exfalso
          rcases hm2 : maxByKey f bs with _ | mb
          · simp only [maxByKey, hm2] at hm
            exact Option.noConfusion hm
          · simp only [maxByKey, hm2] at hm
            split at hm <;> exact Option.noConfusion hm
      · simp only [maxByKey, hm]
        have hmmem : m ∈ as := maxByKey_mem f as m hm
        by_cases hax : a = x
        · subst hax
          rcases hmax m (List.mem_cons_of_mem a hmmem) with h | h
          · subst h
            rw [if_neg (lt_irrefl _)]
          · rw [if_neg (not_lt_of_lt h)]
        · have hxas : x ∈ as := by
            rcases List.mem_cons.mp hx with h | h
            · exact absurd h.symm hax
            · exact h
          have hrec := maxByKey_eq_of_max f as x hxas
            (fun y hy => hmax y (List.mem_cons_of_mem a hy))
          rw [hrec] at hm
          injection hm with hm
          subst hm
          rcases hmax a (by simp) with h | h
          · exact absurd h hax
          · rw [if_pos h]

theorem flatMap_congr_mem {α β : Type} (f g : α → List β) :
    ∀ (l : List α), (∀ a ∈ l, f a = g a) → l.flatMap f = l.flatMap g
  | [], _ => rfl
  | a :: as, h => by
      simp only [List.flatMap_cons, h a (by simp)]
      rw [flatMap_congr_mem f g as (fun x hx => h x (by simp [hx]))]

theorem flatMap_if_singleton {α β : Type} (q : α → Bool) (g : α → β) :
    ∀ (l : List α),
      (l.flatMap fun a => if q a then [g a] else []) = (l.filter q).map g
  | [] => rfl
  | a :: as => by
      simp only [List.flatMap_cons, List.filter_cons]
      by_cases h : q a
      · simp only [if_pos h, flatMap_if_singleton q g as]
        rfl
      · simp only [if_neg h, flatMap_if_singleton q g as]
        simp [h]

/-- Core of C5: under the claim's hypotheses — the project has at least one
snapshot row, snapshot ids increase exactly with the snapshot timestamps,
the project's snapshot rows are pairwise distinct, `m` is the row with the
latest timestamp, and `repo` has exactly the one row `rr` for the project,
placed in group `gid` — the group-scoped anti-join variant (restricted to
the project) and the single-project latest-date variant both report
`sel m`, for any selected column and any insertion order of the rows. -/
theorem snapshotCount_latest (sel : RepoInfoRow → Int) (db : List RepoInfoRow)
    (repos : List RepoRow) (pid gid : Int) (m : RepoInfoRow) (rr : RepoRow)
    (hrr : repos.filter (fun r => r.repo_id == pid) = [rr])
    (hgid : rr.repo_group_id = gid)
    (hm : m ∈ db) (hmp : m.repo_id = pid)
    (hmax : ∀ r ∈ db, r.repo_id = pid → r ≠ m →
      r.data_collection_date < m.data_collection_date)
    (hids : ∀ a ∈ db, ∀ b ∈ db, a.repo_id = pid → b.repo_id = pid →
      (a.repo_info_id < b.repo_info_id ↔
        a.data_collection_date < b.data_collection_date))
    (hnodup : (db.filter (fun r => r.repo_id == pid)).Nodup) :
    (snapshotCountGroup sel db repos gid).filter (fun p => p.1 == pid)
        = [(pid, rr.repo_name, sel m)]
      ∧ snapshotCountRepo sel db repos pid = some (rr.repo_name, sel m) := by
  have hrrfil : rr ∈ repos.filter (fun r => r.repo_id == pid) := by rw [hrr]; simp
  have hrrmem : rr ∈ repos := (List.mem_filter.mp hrrfil).1
  have hrrid : rr.repo_id = pid := by simpa using (List.mem_filter.mp hrrfil).2
  -- the project's snapshot rows surviving the anti-join are exactly [m]
  have hlatest : (latestSnapshots db).filter (fun a => a.repo_id == pid) = [m] := by
    unfold latestSnapshots
    rw [List.filter_filter]
    have hcongr : ∀ a ∈ db,
        ((a.repo_id == pid) &&
          !(db.any (fun b => b.repo_id == a.repo_id && a.repo_info_id < b.repo_info_id)))
        = (a == m) := by
      intro a ha
      by_cases hap : a.repo_id = pid
      · by_cases ham : a = m
        · subst ham
          have h1 : (a.repo_id == pid) = true := by simp [hap]
          have h3 : (db.any (fun b =>
              b.repo_id == a.repo_id && a.repo_info_id < b.repo_info_id)) = false := by
            rw [List.any_eq_false]
            intro b hb
            simp only [Bool.and_eq_true, beq_iff_eq, decide_eq_true_eq, not_and]
            intro hbid hlt
            by_cases hbm : b = a
            · subst hbm; omega
            · have hdate := hmax b hb (by omega) hbm
              have := (hids a ha b hb hap (by omega)).mp hlt
              omega
          rw [h1, h3]
          simp
        · have hdate := hmax a ha hap ham
          have hlt := (hids a ha m hm hap hmp).mpr hdate
          have h1 : (a.repo_id == pid) = true := by simp [hap]
          have h3 : (db.any (fun b =>
              b.repo_id == a.repo_id && a.repo_info_id < b.repo_info_id)) = true := by
            rw [List.any_eq_true]
            exact ⟨m, hm, by simp [hmp, hap, hlt]⟩
          have h2 : (a == m) = false := by simp [ham]
          rw [h1, h3, h2]
          rfl
      · have ham : a ≠ m := fun h => hap (h ▸ hmp)
        have h1 : (a.repo_id == pid) = false := by simp [hap]
        have h2 : (a == m) = false := by simp [ham]
        rw [h1, h2, Bool.false_and]
    rw [List.filter_congr hcongr]
    have hmfil : m ∈ db.filter (fun r => r.repo_id == pid) :=
      List.mem_filter.mpr ⟨hm, by simp [hmp]⟩
    have hcount : (db.filter (fun r => r.repo_id == pid)).count m = 1 :=
      List.count_eq_one_of_mem hnodup hmfil
    have hsplit : db.filter (fun a => a == m)
        = (db.filter (fun r => r.repo_id == pid)).filter (fun a => a == m) := by
      rw [List.filter_filter]
      refine (List.filter_congr ?_).symm
      intro a _
      by_cases ham : a = m
      · simp [ham, hmp]
      · simp [ham]
    rw [hsplit, List.filter_beq, hcount, List.replicate_one]
  constructor
  · -- group-scoped anti-join variant
    unfold snapshotCountGroup
    rw [List.filter_map, List.filter_filter, List.filter_flatMap]
    simp only [Function.comp]
    have hstep : ∀ a ∈ latestSnapshots db,
        ((repos.filter (fun r => r.repo_id == a.repo_id)).map
            (fun r => (a, r))).filter (fun p =>
              p.1.repo_id == pid &&
              ((repos.filter (fun r => r.repo_group_id == gid)).map
                (·.repo_id)).contains p.1.repo_id)
          = if a.repo_id == pid then [(a, rr)] else [] := by
      intro a _
      by_cases hap : a.repo_id = pid
      · have hmem : ((repos.filter (fun r => r.repo_group_id == gid)).map
            (·.repo_id)).contains pid = true := by
          simp only [List.contains_eq_any_beq, List.any_eq_true]
          refine ⟨rr.repo_id, ?_, by simp [hrrid]⟩
          refine List.mem_map.mpr ⟨rr, List.mem_filter.mpr ⟨hrrmem, by simp [hgid]⟩, rfl⟩
        rw [hap, hrr]
        simp only [List.map_cons, List.map_nil, List.filter_cons, List.filter_nil]
        simp [hmem, hap]
        exact ⟨rr, hrrmem, hgid, hrrid⟩
      · rw [if_neg (by simp [hap])]
        rw [List.filter_eq_nil_iff]
        rintro p hp
        obtain ⟨r, _, rfl⟩ := List.mem_map.mp hp
        simp [hap]
    rw [flatMap_congr_mem _ _ _ hstep, flatMap_if_singleton, hlatest]
    simp [hmp]
  · -- single-project latest-date variant
    simp only [snapshotCountRepo]
    have hjoin : (db.filter (fun a => a.repo_id == pid)).flatMap
        (fun a => (repos.filter (fun r => r.repo_id == a.repo_id)).map
          (fun r => (a, r.repo_name)))
        = (db.filter (fun a => a.repo_id == pid)).map (fun a => (a, rr.repo_name)) := by
      apply flatMap_eq_map_of_singleton
      intro a ha
      have hap : a.repo_id = pid := by simpa using (List.mem_filter.mp ha).2
      rw [hap, hrr]
      rfl
    rw [hjoin]
    have hmfil : m ∈ db.filter (fun a => a.repo_id == pid) :=
      List.mem_filter.mpr ⟨hm, by simp [hmp]⟩
    have hmx : maxByKey (fun p => p.1.data_collection_date)
        ((db.filter (fun a => a.repo_id == pid)).map (fun a => (a, rr.repo_name)))
        = some (m, rr.repo_name) := by
      apply maxByKey_eq_of_max
      · exact List.mem_map.mpr ⟨m, hmfil, rfl⟩
      · intro y hy
        obtain ⟨b, hb, rfl⟩ := List.mem_map.mp hy
        obtain ⟨hb1, hb2⟩ := List.mem_filter.mp hb
        by_cases hbm : b = m
        · left; rw [hbm]
        · right
          exact hmax b hb1 (by simpa using hb2) hbm
    rw [hmx]
    rfl

/-- C5: for a project with at least one `repo_info` snapshot row, assuming
snapshot ids increase exactly with the snapshot timestamps (and the
project's rows are pairwise distinct), the "current count" snapshot
metrics `fork_count`, `stars_count` and `watchers_count` — the
group-scoped variant (anti-join on the snapshot id, restricted to the
project) as well as the single-project variant (latest
`data_collection_date`) — all return the count of the snapshot `m` with
the latest timestamp.  The row list `db` is universally quantified, so the
result is independent of insertion order. -/
theorem snapshot_metrics_latest (db : List RepoInfoRow) (repos : List RepoRow)
    (pid gid : Int) (m : RepoInfoRow) (rr : RepoRow)
    (hrr : repos.filter (fun r => r.repo_id == pid) = [rr])
    (hgid : rr.repo_group_id = gid)
    (hm : m ∈ db) (hmp : m.repo_id = pid)
    (hmax : ∀ r ∈ db, r.repo_id = pid → r ≠ m →
      r.data_collection_date < m.data_collection_date)
    (hids : ∀ a ∈ db, ∀ b ∈ db, a.repo_id = pid → b.repo_id = pid →
      (a.repo_info_id < b.repo_info_id ↔
        a.data_collection_date < b.data_collection_date))
    (hnodup : (db.filter (fun r => r.repo_id == pid)).Nodup) :
    ((fork_count_group db repos gid).filter (fun p => p.1 == pid)
        = [(pid, rr.repo_name, m.fork_count)]
      ∧ fork_count_repo db repos pid = some (rr.repo_name, m.fork_count))
    ∧ ((stars_count_group db repos gid).filter (fun p => p.1 == pid)
        = [(pid, rr.repo_name, m.stars_count)]
      ∧ stars_count_repo db repos pid = some (rr.repo_name, m.stars_count))
    ∧ ((watchers_count_group db repos gid).filter (fun p => p.1 == pid)
        = [(pid, rr.repo_name, m.watchers_count)]
      ∧ watchers_count_repo db repos pid = some (rr.repo_name, m.watchers_count)) :=
  ⟨snapshotCount_latest (·.fork_count) db repos pid gid m rr
      hrr hgid hm hmp hmax hids hnodup,
    snapshotCount_latest (·.stars_count) db repos pid gid m rr
      hrr hgid hm hmp hmax hids hnodup,
    snapshotCount_latest (·.watchers_count) db repos pid gid m rr
      hrr hgid hm hmp hmax hids hnodup⟩

/-- Witness for C5: two snapshots of project 1 (ids 1 and 2, dates 10 and
20) inserted newest-first; all six query variants report the counts of
snapshot id 2. -/
theorem snapshot_metrics_latest_witness :
    ((fork_count_group [⟨2, 1, 20, 7, 70, 700⟩, ⟨1, 1, 10, 5, 50, 500⟩]
          [⟨1, "r1", 1⟩, ⟨2, "r2", 1⟩] 1).filter (fun p => p.1 == 1)
        = [(1, "r1", 7)]
      ∧ fork_count_repo [⟨2, 1, 20, 7, 70, 700⟩, ⟨1, 1, 10, 5, 50, 500⟩]
          [⟨1, "r1", 1⟩, ⟨2, "r2", 1⟩] 1 = some ("r1", 7))
    ∧ ((stars_count_group [⟨2, 1, 20, 7, 70, 700⟩, ⟨1, 1, 10, 5, 50, 500⟩]
          [⟨1, "r1", 1⟩, ⟨2, "r2", 1⟩] 1).filter (fun p => p.1 == 1)
        = [(1, "r1", 70)]
      ∧ stars_count_repo [⟨2, 1, 20, 7, 70, 700⟩, ⟨1, 1, 10, 5, 50, 500⟩]
          [⟨1, "r1", 1⟩, ⟨2, "r2", 1⟩] 1 = some ("r1", 70))
    ∧ ((watchers_count_group [⟨2, 1, 20, 7, 70, 700⟩, ⟨1, 1, 10, 5, 50, 500⟩]
          [⟨1, "r1", 1⟩, ⟨2, "r2", 1⟩] 1).filter (fun p => p.1 == 1)
        = [(1, "r1", 700)]
      ∧ watchers_count_repo [⟨2, 1, 20, 7, 70, 700⟩, ⟨1, 1, 10, 5, 50, 500⟩]
          [⟨1, "r1", 1⟩, ⟨2, "r2", 1⟩] 1 = some ("r1", 700)) :=
  snapshot_metrics_latest [⟨2, 1, 20, 7, 70, 700⟩, ⟨1, 1, 10, 5, 50, 500⟩]
    [⟨1, "r1", 1⟩, ⟨2, "r2", 1⟩] 1 1 ⟨2, 1, 20, 7, 70, 700⟩ ⟨1, "r1", 1⟩
    (by decide) (by decide) (by decide) (by decide) (by decide) (by decide)
    (by decide)

/-- C6 (amended): each two-variant metric picks its query and column set by
a single branch on Python falsiness of `repo_id`; `code_changes` drops the
`repo_id` column in single-project mode, but not every metric does —
`issues_open_age` still selects `repo.repo_id` in its single-project
query. -/
theorem two_variant_columns (repo_id : Option Int) :
    (code_changes_columns repo_id
        = if pyFalsy repo_id then code_changes_group_columns
          else code_changes_repo_columns)
    ∧ (issues_open_age_columns repo_id
        = if pyFalsy repo_id then issues_open_age_group_columns
          else issues_open_age_repo_columns)
    ∧ "repo_id" ∈ code_changes_group_columns
    ∧ "repo_id" ∉ code_changes_repo_columns
    ∧ "repo_id" ∈ issues_open_age_group_columns
    ∧ "repo_id" ∈ issues_open_age_repo_columns :=
  ⟨rfl, rfl, by decide, by decide, by decide, by decide⟩

/-- Counterexample to C6 as stated: the single-project variant of
`issues_open_age` does NOT omit the `repo_id` column — its projection
(line 1095) still selects `repo.repo_id`, so the "group-identifying
columns are dropped in single-project mode" contract fails for this
metric. -/
theorem two_variant_columns_counterexample :
    "repo_id" ∈ issues_open_age_columns (some 5)
    ∧ ¬ ("repo_id" ∉ issues_open_age_repo_columns) :=
  ⟨by decide, by decide⟩

/-! ## Lemmas about `downloaded_repos` url rewriting and base64 -/

theorem decodeChar_encodeChar (n : ℕ) (h : n < 64) :
    decodeChar (encodeChar n) = some n := by
  revert h
  revert n
  decide

theorem encodeChar_ne_61 (n : ℕ) (h : n < 64) : (encodeChar n == 61) = false := by
  revert h
  revert n
  decide

/-- Decoding inverts encoding on every byte string: the base64 round-trip
at the heart of C10. -/
theorem b64decode_b64encode : ∀ (bs : List ℕ), (∀ b ∈ bs, b < 256) →
    b64decode (b64encode bs) = some bs
  | [], _ => rfl
  | [b1], h => by
      have hb1 : b1 < 256 := h b1 (by simp)
      simp only [b64encode, b64decode]
      rw [decodeChar_encodeChar _ (by omega), decodeChar_encodeChar _ (by omega)]
      simp only [Option.bind_eq_bind, Option.some_bind, if_pos rfl]
      simp only [beq_self_eq_true, if_true, if_pos rfl]
      simp
      omega
  | [b1, b2], h => by
      have hb1 : b1 < 256 := h b1 (by simp)
      have hb2 : b2 < 256 := h b2 (by simp)
      have h61 : (encodeChar (b2 % 16 * 4) == 61) = false :=
        encodeChar_ne_61 _ (by omega)
      simp only [b64encode, b64decode, h61]
      rw [decodeChar_encodeChar _ (by omega), decodeChar_encodeChar _ (by omega),
        decodeChar_encodeChar _ (by omega)]
      simp only [Option.bind_eq_bind, Option.some_bind, beq_self_eq_true, if_true,
        if_pos rfl, Bool.false_eq_true, if_false]
      simp
      omega
  | b1 :: b2 :: b3 :: b4 :: rest, h => by
      have hb1 : b1 < 256 := h b1 (by simp)
      have hb2 : b2 < 256 := h b2 (by simp)
      have hb3 : b3 < 256 := h b3 (by simp)
      have h61 : (encodeChar (b3 % 64) == 61) = false :=
        encodeChar_ne_61 _ (by omega)
      have ih := b64decode_b64encode (b4 :: rest)
        (fun b hb => h b (by simp at hb; rcases hb with h | h <;> simp [h]))
      simp only [b64encode, b64decode, h61]
      rw [decodeChar_encodeChar _ (by omega), decodeChar_encodeChar _ (by omega),
        decodeChar_encodeChar _ (by omega), decodeChar_encodeChar _ (by omega)]
      simp only [Option.bind_eq_bind, Option.some_bind, Bool.false_eq_true, if_false]
      rw [ih]
      simp only [Option.some_bind]
      simp
      omega
  | [b1, b2, b3], h => by
      have hb1 : b1 < 256 := h b1 (by simp)
      have hb2 : b2 < 256 := h b2 (by simp)
      have hb3 : b3 < 256 := h b3 (by simp)
      have h61 : (encodeChar (b3 % 64) == 61) = false :=
        encodeChar_ne_61 _ (by omega)
      simp only [b64encode, b64decode, h61]
      rw [decodeChar_encodeChar _ (by omega), decodeChar_encodeChar _ (by omega),
        decodeChar_encodeChar _ (by omega), decodeChar_encodeChar _ (by omega)]
      simp only [Option.bind_eq_bind, Option.some_bind, Bool.false_eq_true, if_false]
      simp
      omega

/-- The split's head is the segment before the first `'//'` and its tail is
the split of what follows. -/
theorem splitSlashes_head_tail : ∀ (s : List ℕ),
    splitSlashes s = upToSlashes s ::
      (match afterSlashes s with
        | none => ([] : List (List ℕ))
        | some r => splitSlashes r)
  | [] => rfl
  | [b] => rfl
  | b :: b2 :: rest => by
      by_cases h : b = 47 ∧ b2 = 47
      · simp only [splitSlashes, upToSlashes, afterSlashes]
        rw [if_pos h, if_pos h, if_pos h]
      · simp only [splitSlashes, upToSlashes, afterSlashes]
        rw [if_neg h, if_neg h, if_neg h, splitSlashes_head_tail (b2 :: rest)]

theorem mem_upToSlashes : ∀ (s : List ℕ), ∀ b ∈ upToSlashes s, b ∈ s
  | [], b, hb => by simp [upToSlashes] at hb
  | [c], b, hb => by simpa [upToSlashes] using hb
  | c :: c2 :: rest, b, hb => by
      by_cases h : c = 47 ∧ c2 = 47
      · simp [upToSlashes, if_pos h] at hb
      · simp only [upToSlashes, if_neg h, List.mem_cons] at hb
        rcases hb with hb | hb
        · simp [hb]
        · have := mem_upToSlashes (c2 :: rest) b hb
          simp only [List.mem_cons] at this ⊢
          tauto

theorem mem_afterSlashes : ∀ (s r : List ℕ), afterSlashes s = some r →
    ∀ b ∈ r, b ∈ s
  | [], r, h => by simp [afterSlashes] at h
  | [c], r, h => by simp [afterSlashes] at h
  | c :: c2 :: rest, r, h => by
      by_cases hc : c = 47 ∧ c2 = 47
      · simp only [afterSlashes, if_pos hc] at h
        injection h with h
        subst h
        intro b hb
        simp [hb]
      · simp only [afterSlashes, if_neg hc] at h
        intro b hb
        have := mem_afterSlashes (c2 :: rest) r h b hb
        simp only [List.mem_cons] at this ⊢
        tauto

/-- C10 (amended): the `url` column of `downloaded_repos` is the SECOND
field of `repo_git` split on `'//'` — the text between the first `'//'`
and the next `'//'` if there is another one, not "everything after the
first `'//'`" — and `base64_url` is the base64 encoding of `url`, which
always decodes back to `url`. -/
theorem downloaded_repos_url_roundtrip (repo_git : List ℕ)
    (hbytes : ∀ b ∈ repo_git, b < 256) :
    urlOf repo_git = (afterSlashes repo_git).map upToSlashes
    ∧ ∀ url, urlOf repo_git = some url →
        b64decode (b64encode url) = some url := by
  have heq : urlOf repo_git = (afterSlashes repo_git).map upToSlashes := by
    unfold urlOf
    rw [splitSlashes_head_tail repo_git]
    cases h : afterSlashes repo_git with
    | none => rfl
    | some r =>
        simp only [List.get?_cons_succ, Option.map_some]
        rw [splitSlashes_head_tail r]
        rfl
  refine ⟨heq, ?_⟩
  intro url hurl
  rw [heq] at hurl
  cases h : afterSlashes repo_git with
  | none => rw [h] at hurl; exact absurd hurl (by simp)
  | some r =>
      rw [h] at hurl
      have hurl' : upToSlashes r = url := by simpa using hurl
      subst hurl'
      refine b64decode_b64encode _ ?_
      intro b hb
      exact hbytes b (mem_afterSlashes repo_git r h b (mem_upToSlashes r b hb))

/-- Counterexample to C10 as stated: for a stored `repo_git` containing a
second `'//'` (here `"https://a//b"`), `datum.split('//')[1]` yields only
the text between the two separators (`"a"`), not everything after the
first `'//'` (`"a//b"`). -/
theorem downloaded_repos_url_counterexample :
    urlOf [104, 116, 116, 112, 115, 58, 47, 47, 97, 47, 47, 98] = some [97]
    ∧ afterSlashes [104, 116, 116, 112, 115, 58, 47, 47, 97, 47, 47, 98]
        = some [97, 47, 47, 98]
    ∧ (some [97] : Option (List ℕ)) ≠ some [97, 47, 47, 98] :=
  ⟨by decide, by decide, by decide⟩

/-- Witness for C10 (amended) on the byte string `"h://ab"`. -/
theorem downloaded_repos_url_roundtrip_witness :
    urlOf [104, 58, 47, 47, 97, 98]
        = (afterSlashes [104, 58, 47, 47, 97, 98]).map upToSlashes
    ∧ ∀ url, urlOf [104, 58, 47, 47, 97, 98] = some url →
        b64decode (b64encode url) = some url :=
  downloaded_repos_url_roundtrip [104, 58, 47, 47, 97, 98] (by decide)

/-! ## Lemmas for the project-restriction refinement of `code_changes` -/

theorem orderedInsert_of_forall {α : Type} (r : α → α → Prop) [DecidableRel r]
    (a : α) : ∀ (l : List α), (∀ x ∈ l, r a x) → l.orderedInsert r a = a :: l
  | [], _ => rfl
  | b :: bs, h => by rw [List.orderedInsert, if_pos (h b (by simp))]

theorem filter_orderedInsert_pos {α : Type} (r : α → α → Prop) [DecidableRel r]
    [IsTrans α r] (q : α → Bool) (a : α) (ha : q a = true) :
    ∀ (l : List α), List.Sorted r l →
      (l.orderedInsert r a).filter q = (l.filter q).orderedInsert r a
  | [], _ => by simp [ha]
  | b :: bs, hs => by
      by_cases hab : r a b
      · rw [List.orderedInsert, if_pos hab]
        by_cases hqb : q b
        · simp only [List.filter_cons, ha, hqb, if_true]
          rw [List.orderedInsert, if_pos hab]
        · simp only [List.filter_cons, ha, hqb, if_true, Bool.false_eq_true, if_false]
          refine (orderedInsert_of_forall r a _ ?_).symm
          intro x hx
          have hxbs : x ∈ bs := (List.mem_filter.mp hx).1
          exact Trans.trans hab (List.rel_of_sorted_cons hs x hxbs)
      · rw [List.orderedInsert, if_neg hab]
        by_cases hqb : q b
        · simp only [List.filter_cons, hqb, if_true]
          rw [filter_orderedInsert_pos r q a ha bs hs.of_cons,
            List.orderedInsert, if_neg hab]
        · simp only [List.filter_cons, hqb, Bool.false_eq_true, if_false]
          exact filter_orderedInsert_pos r q a ha bs hs.of_cons

theorem filter_orderedInsert_neg {α : Type} (r : α → α → Prop) [DecidableRel r]
    (q : α → Bool) (a : α) (ha : q a = false) :
    ∀ (l : List α), (l.orderedInsert r a).filter q = l.filter q
  | [] => by simp [ha]
  | b :: bs => by
      by_cases hab : r a b
      · rw [List.orderedInsert, if_pos hab]
        simp [List.filter_cons, ha]
      · rw [List.orderedInsert, if_neg hab]
        simp only [List.filter_cons]
        rw [filter_orderedInsert_neg r q a ha bs]

/-- `ORDER BY` commutes with row filtering (for a total transitive sort
relation): filtering a sorted result equals sorting the filtered rows. -/
theorem filter_insertionSort {α : Type} (r : α → α → Prop) [DecidableRel r]
    [IsTotal α r] [IsTrans α r] (q : α → Bool) :
    ∀ (l : List α), (l.insertionSort r).filter q = (l.filter q).insertionSort r
  | [] => rfl
  | a :: as => by
      rw [List.insertionSort, List.filter_cons]
      by_cases hq : q a
      · rw [filter_orderedInsert_pos r q a hq _ (List.sorted_insertionSort r as),
          filter_insertionSort r q as]
        simp only [hq, if_true, List.insertionSort]
      · rw [filter_orderedInsert_neg r q a (Bool.eq_false_iff.mpr hq), filter_insertionSort r q as]
        simp only [hq, Bool.false_eq_true, if_false]

theorem firstDedupAux_filter {α : Type} [DecidableEq α] (q : α → Bool) :
    ∀ (l s₁ s₂ : List α), (∀ x, q x = true → (x ∈ s₁ ↔ x ∈ s₂)) →
      (firstDedupAux s₁ l).filter q = firstDedupAux s₂ (l.filter q)
  | [], _, _, _ => rfl
  | a :: as, s₁, s₂, h => by
      simp only [firstDedupAux, List.filter_cons]
      by_cases hq : q a
      · simp only [hq, if_true]
        by_cases hmem : a ∈ s₁
        · rw [if_pos hmem, firstDedupAux, if_pos ((h a hq).mp hmem)]
          exact firstDedupAux_filter q as s₁ s₂ h
        · rw [if_neg hmem, firstDedupAux,
            if_neg (fun hm => hmem ((h a hq).mpr hm)), List.filter_cons, if_pos hq]
          congr 1
          refine firstDedupAux_filter q as (a :: s₁) (a :: s₂) ?_
          intro x hx
          simp only [List.mem_cons]
          rw [h x hx]
      · simp only [hq, Bool.false_eq_true, if_false]
        by_cases hmem : a ∈ s₁
        · rw [if_pos hmem]
          exact firstDedupAux_filter q as s₁ s₂ h
        · rw [if_neg hmem, List.filter_cons, if_neg (by simp [hq])]
          refine firstDedupAux_filter q as (a :: s₁) s₂ ?_
          intro x hx
          have hxa : x ≠ a := fun he => by rw [he] at hx; exact absurd hx (by simp [hq])
          simp only [List.mem_cons]
          constructor
          · rintro (he | hm)
            · exact absurd he hxa
            · exact (h x hx).mp hm
          · intro hm
            exact Or.inr ((h x hx).mpr hm)

/-- Group-by key collection commutes with filtering the underlying rows. -/
theorem firstDedup_filter {α : Type} [DecidableEq α] (q : α → Bool) (l : List α) :
    (firstDedup l).filter q = firstDedup (l.filter q) :=
  firstDedupAux_filter q l [] [] (by simp)

theorem firstDedupAux_map {α β : Type} [DecidableEq α] [DecidableEq β]
    (f : α → β) (hinj : ∀ x y, f x = f y → x = y) :
    ∀ (l s : List α), firstDedupAux (s.map f) (l.map f) = (firstDedupAux s l).map f
  | [], _ => rfl
  | a :: as, s => by
      simp only [List.map_cons, firstDedupAux]
      by_cases hmem : a ∈ s
      · rw [if_pos (List.mem_map.mpr ⟨a, hmem, rfl⟩), if_pos hmem]
        exact firstDedupAux_map f hinj as s
      · have hfa : f a ∉ s.map f := by
          intro hm
          obtain ⟨x, hx, hfx⟩ := List.mem_map.mp hm
          exact hmem (hinj x a hfx ▸ hx)
        rw [if_neg hfa, if_neg hmem, List.map_cons]
        congr 1
        have := firstDedupAux_map f hinj as (a :: s)
        simpa using this

/-- Group-by key collection commutes with an injective change of key. -/
theorem firstDedup_map {α β : Type} [DecidableEq α] [DecidableEq β]
    (f : α → β) (hinj : ∀ x y, f x = f y → x = y) (l : List α) :
    firstDedup (l.map f) = (firstDedup l).map f :=
  firstDedupAux_map f hinj l []

/-- C7 (amended), for `code_changes` — a metric whose single-project
template filters directly on the project id: provided `repo` has exactly
one row `rr` for project `p` and that row lies in group `gid`, the
single-project call returns exactly the group-scoped rows restricted to
`p`, with the dropped `repo_id` column removed.  (The equality fails for
`annual_commit_count_ranked_by_repo_in_repo_group`, whose single-project
variant scopes to the repo's whole group — see the counterexample.) -/
theorem code_changes_project_restriction (commits : List CommitRow)
    (repos : List RepoRow) (p gid : Int) (rr : RepoRow) (trunc : Int → Int)
    (begin_date end_date : Int)
    (hrr : repos.filter (fun r => r.repo_id == p) = [rr])
    (hgid : rr.repo_group_id = gid) :
    code_changes_repo commits repos p trunc begin_date end_date
      = ((code_changes_group commits repos gid trunc begin_date end_date).filter
          (fun row => row.repo_id == p)).map dropRepoId := by
  have hrrfil : rr ∈ repos.filter (fun r => r.repo_id == p) := by rw [hrr]; simp
  have hrrmem : rr ∈ repos := (List.mem_filter.mp hrrfil).1
  have hrrid : rr.repo_id = p := by simpa using (List.mem_filter.mp hrrfil).2
  have hmem : ((repos.filter (fun r => r.repo_group_id == gid)).map
      (·.repo_id)).contains p = true := by
    simp only [List.contains_eq_any_beq, List.any_eq_true]
    refine ⟨rr.repo_id, ?_, by simp [hrrid]⟩
    exact List.mem_map.mpr ⟨rr, List.mem_filter.mpr ⟨hrrmem, by simp [hgid]⟩, rfl⟩
  simp only [code_changes_group, code_changes_repo]
  set matchG := (codeChangesJoin commits repos).filter
    (groupWhere repos gid begin_date end_date) with hmG
  set matchS := (codeChangesJoin commits repos).filter
    (repoWhere p begin_date end_date) with hmS
  -- the single-project WHERE clause is the group WHERE clause restricted to p
  have hmatch : matchG.filter (fun pr => pr.1.repo_id == p) = matchS := by
    rw [hmG, hmS, List.filter_filter]
    refine List.filter_congr ?_
    intro pr _
    unfold groupWhere repoWhere
    by_cases hrep : pr.1.repo_id = p
    · rw [hrep]
      rw [hmem]
      simp
    · have h0 : (pr.1.repo_id == p) = false := by simp [hrep]
      rw [h0]
      simp
  -- the two variants count the same rows in corresponding groups
  have hcount : ∀ k : Int × String,
      (matchG.filter (groupCountPred trunc (p, k.1, k.2))).length
        = (matchS.filter (repoCountPred trunc k)).length := by
    intro k
    rw [← hmatch]
    conv_rhs => rw [List.filter_filter]
    congr 1
    refine List.filter_congr ?_
    intro pr _
    unfold groupCountPred repoCountPred
    rw [Bool.and_assoc]
    conv_rhs => rw [Bool.and_comm]
  -- the group-by keys restricted to p are the injected single-variant keys
  have hkinj : ∀ x y : Int × String,
      (fun k : Int × String => ((p, k.1, k.2) : Int × Int × String)) x
        = (fun k : Int × String => ((p, k.1, k.2) : Int × Int × String)) y →
      x = y := by
    intro x y h
    simp only [Prod.mk.injEq] at h
    cases x; cases y
    simp_all
  have hkeys : (firstDedup (matchG.map (groupKeyG trunc))).filter
        (fun k => k.1 == p)
      = (firstDedup (matchS.map (groupKeyS trunc))).map
          (fun k => ((p, k.1, k.2) : Int × Int × String)) := by
    rw [firstDedup_filter, List.filter_map]
    have hpred : matchG.filter ((fun k : Int × Int × String => k.1 == p)
          ∘ groupKeyG trunc)
        = matchG.filter (fun pr => pr.1.repo_id == p) :=
      List.filter_congr (fun pr _ => rfl)
    rw [hpred, hmatch]
    have hmapinj : matchS.map (groupKeyG trunc)
        = (matchS.map (groupKeyS trunc)).map
            (fun k => ((p, k.1, k.2) : Int × Int × String)) := by
      rw [List.map_map]
      refine List.map_eq_map_iff.mpr ?_
      intro pr hpr
      rw [hmS] at hpr
      have hp : pr.1.repo_id = p := by
        have hw := (List.mem_filter.mp hpr).2
        unfold repoWhere at hw
        simp only [Bool.and_eq_true, beq_iff_eq] at hw
        exact hw.1.1
      unfold groupKeyG groupKeyS
      simp [hp]
    rw [hmapinj, firstDedup_map _ hkinj]
  -- the sort relations
  haveI : IsTrans GroupChangeRow (fun x y =>
      x.repo_id < y.repo_id ∨ (x.repo_id = y.repo_id ∧ x.date ≤ y.date)) :=
    ⟨by intro a b c hab hbc; omega⟩
  haveI : IsTotal GroupChangeRow (fun x y =>
      x.repo_id < y.repo_id ∨ (x.repo_id = y.repo_id ∧ x.date ≤ y.date)) :=
    ⟨by intro a b; omega⟩
  rw [filter_insertionSort (fun x y =>
    x.repo_id < y.repo_id ∨ (x.repo_id = y.repo_id ∧ x.date ≤ y.date))
    (fun row => row.repo_id == p)
    ((firstDedup (matchG.map (groupKeyG trunc))).map (fun k =>
      GroupChangeRow.mk k.1 k.2.2 k.2.1
        (matchG.filter (groupCountPred trunc k)).length))]
  have hsortmap : ∀ (l : List GroupChangeRow), (∀ row ∈ l, row.repo_id = p) →
      (l.insertionSort (fun x y =>
        x.repo_id < y.repo_id ∨ (x.repo_id = y.repo_id ∧ x.date ≤ y.date))).map
          dropRepoId
      = (l.map dropRepoId).insertionSort (fun x y => x.date ≤ y.date) := by
    intro l hl
    refine List.map_insertionSort (fun x y : GroupChangeRow =>
      x.repo_id < y.repo_id ∨ (x.repo_id = y.repo_id ∧ x.date ≤ y.date))
      (fun x y : RepoChangeRow => x.date ≤ y.date) dropRepoId l ?_
    intro a ha b hb
    have hpa := hl a ha
    have hpb := hl b hb
    dsimp only [dropRepoId]
    omega
  rw [hsortmap _ ?hallp]
  case hallp =>
    intro row hrow
    simpa using (List.mem_filter.mp hrow).2
  -- it remains to identify the unsorted row lists
  congr 1
  rw [List.filter_map]
  have hpred2 : (firstDedup (matchG.map (groupKeyG trunc))).filter
        ((fun row : GroupChangeRow => row.repo_id == p) ∘ (fun k =>
          GroupChangeRow.mk k.1 k.2.2 k.2.1
            (matchG.filter (groupCountPred trunc k)).length))
      = (firstDedup (matchG.map (groupKeyG trunc))).filter (fun k => k.1 == p) :=
    List.filter_congr (fun k _ => rfl)
  rw [hpred2, hkeys, List.map_map, List.map_map]
  refine (List.map_eq_map_iff.mpr ?_).symm
  intro k _
  simp only [Function.comp]
  simp [dropRepoId, hcount k]

/-- Counterexample to C7 as stated: the single-project variant of
`annual_commit_count_ranked_by_repo_in_repo_group` scopes to the WHOLE
group of the requested repo (`WHERE repo.repo_group_id = (select
repo.repo_group_id from repo where repo.repo_id = :repo_id)`), so with two
repos in the group the call for repo 1 returns rows of repo 2 as well —
not the group-scoped result restricted to repo 1 (no column is dropped by
this metric, so "up to dropped columns" is plain equality here). -/
theorem project_scope_restriction_counterexample :
    annual_commit_count_ranked_repo
        [⟨1, "a", 2020, 3, 10, 1, 1⟩, ⟨2, "b", 2020, 2, 5, 1, 0⟩]
        [⟨1, "r1", 1⟩, ⟨2, "r2", 1⟩] [(1, "g")] 1
      = some [⟨1, "r1", 8, 3⟩, ⟨2, "r2", 4, 2⟩]
    ∧ (annual_commit_count_ranked_group
        [⟨1, "a", 2020, 3, 10, 1, 1⟩, ⟨2, "b", 2020, 2, 5, 1, 0⟩]
        [⟨1, "r1", 1⟩, ⟨2, "r2", 1⟩] [(1, "g")] 1).filter
          (fun r => r.repo_id == 1)
      = [⟨1, "r1", 8, 3⟩]
    ∧ ([⟨1, "r1", 8, 3⟩, ⟨2, "r2", 4, 2⟩] : List RankedRow) ≠ [⟨1, "r1", 8, 3⟩] :=
  ⟨by decide, by decide, by decide⟩

/-- Witness for C7 (amended) on a concrete store: repos r1, r2 in group 1,
four commits, day-pair truncation; the single-project result for repo 1
equals the group result restricted to repo 1 with `repo_id` dropped. -/
theorem code_changes_project_restriction_witness :
    code_changes_repo [⟨1, "h1", 3⟩, ⟨1, "h2", 3⟩, ⟨2, "h3", 5⟩, ⟨1, "h4", 9⟩]
        [⟨1, "r1", 1⟩, ⟨2, "r2", 1⟩] 1 (fun d => d / 2 * 2) 0 100
      = ((code_changes_group [⟨1, "h1", 3⟩, ⟨1, "h2", 3⟩, ⟨2, "h3", 5⟩, ⟨1, "h4", 9⟩]
          [⟨1, "r1", 1⟩, ⟨2, "r2", 1⟩] 1 (fun d => d / 2 * 2) 0 100).filter
            (fun row => row.repo_id == 1)).map dropRepoId :=
  code_changes_project_restriction
    [⟨1, "h1", 3⟩, ⟨1, "h2", 3⟩, ⟨2, "h3", 5⟩, ⟨1, "h4", 9⟩]
    [⟨1, "r1", 1⟩, ⟨2, "r2", 1⟩] 1 1 ⟨1, "r1", 1⟩ (fun d => d / 2 * 2) 0 100
    (by decide) (by decide)

end Augur
